import Mathlib

/-!
Verification development for the Lorenz-96 two-timescale demo repository.

The reusable numerical core (`L96_model`: tendency functions, fixed-step
integrators, the `integrate_L96_1t` / `integrate_L96_2t` orchestration and
the stateful `L96` wrapper) is imported by the notebooks but its module
source is not part of the checked tree, so those operations are modelled
from the specification text.  The notebook-level code
(`GCM_no_parameterization`, the `GCM` class, `naive_parameterization`) is
embedded directly from the notebook source.

Real numbers are modelled by `ℚ` so that every definition is executable;
numpy 1-D arrays are `List ℚ`, 2-D arrays are `List (List ℚ)`.
-/

/-- Pointwise addition of two vectors (numpy broadcast addition of equal
length 1-D arrays). -/
def vadd (a b : List ℚ) : List ℚ := List.zipWith (fun x y => x + y) a b

/-- Pointwise subtraction of two vectors. -/
def vsub (a b : List ℚ) : List ℚ := List.zipWith (fun x y => x - y) a b

/-- Scalar times vector. -/
def vsmul (c : ℚ) (a : List ℚ) : List ℚ := a.map (fun x => c * x)

theorem vadd_length (a b : List ℚ) : (vadd a b).length = min a.length b.length := by
  simp [vadd]

theorem vsub_length (a b : List ℚ) : (vsub a b).length = min a.length b.length := by
  simp [vsub]

theorem vsmul_length (c : ℚ) (a : List ℚ) : (vsmul c a).length = a.length := by
  simp [vsmul]

/-- Circular element access: entry `i mod length` (the numpy negative-index
wraparound made explicit, as §9 of the spec prescribes). -/
def cg (X : List ℚ) (i : ℕ) : ℚ := X.getD (i % X.length) 0

/-- Element `k` of the uncoupled slow tendency: `-X[k-1]*(X[k-2] - X[k+1])
- X[k] + F`, neighbour indices circular mod `K = X.length`. -/
def slowRhs (X : List ℚ) (F : ℚ) (k : ℕ) : ℚ :=
  -(cg X (k + X.length - 1)) * (cg X (k + X.length - 2) - cg X (k + 1)) - X.getD k 0 + F

/-- Modelled from the spec: `L96_eq1_xdot` (`slow_tendency_uncoupled(X, F)`)
of the missing `L96_model` module — "returns a sequence of K values, where
element k is `-X[k-1]*(X[k-2] - X[k+1]) - X[k] + F`, all indices circular
mod K". -/
def L96_eq1_xdot (X : List ℚ) (F : ℚ) : List ℚ :=
  (List.range X.length).map (slowRhs X F)

theorem L96_eq1_xdot_length (X : List ℚ) (F : ℚ) :
    (L96_eq1_xdot X F).length = X.length := by
  simp [L96_eq1_xdot]

theorem range_map_getD (f : ℕ → ℚ) (n k : ℕ) (hk : k < n) :
    ((List.range n).map f).getD k 0 = f k := by
  rw [List.getD_eq_getElem?_getD, List.getElem?_map, List.getElem?_range hk]
  rfl

theorem L96_eq1_xdot_getD (X : List ℚ) (F : ℚ) (k : ℕ) (hk : k < X.length) :
    (L96_eq1_xdot X F).getD k 0 = slowRhs X F k :=
  range_map_getD (slowRhs X F) X.length k hk

/-- C2: the uncoupled slow tendency has K entries, entry k follows the
cyclic Lorenz-96 formula, and on the all-zero length-4 state with F = 0 it
is the all-zero sequence.  (It is a pure function of its arguments: the
embedding is a plain `def` with no state.) -/
theorem claim_C2_slow_tendency (X : List ℚ) (F : ℚ) (k : ℕ)
    (hK : 4 ≤ X.length) (hk : k < X.length) :
    (L96_eq1_xdot X F).length = X.length ∧
    (L96_eq1_xdot X F).getD k 0 =
      -(X.getD ((k + X.length - 1) % X.length) 0) *
          (X.getD ((k + X.length - 2) % X.length) 0 - X.getD ((k + 1) % X.length) 0)
        - X.getD k 0 + F ∧
    L96_eq1_xdot [0, 0, 0, 0] 0 = [0, 0, 0, 0] := by
  refine ⟨L96_eq1_xdot_length X F, ?_, by simp [L96_eq1_xdot, slowRhs, cg, List.range_succ]⟩
  rw [L96_eq1_xdot_getD X F k hk]
  simp [slowRhs, cg]

/-- Witness for C2 at the concrete state `[1, 2, 3, 4]`, `F = 5`, `k = 0`. -/
theorem claim_C2_slow_tendency_witness :
    (L96_eq1_xdot [1, 2, 3, 4] 5).getD 0 0 =
      -(([1, 2, 3, 4] : List ℚ).getD ((0 + 4 - 1) % 4) 0) *
          (([1, 2, 3, 4] : List ℚ).getD ((0 + 4 - 2) % 4) 0 -
            ([1, 2, 3, 4] : List ℚ).getD ((0 + 1) % 4) 0)
        - ([1, 2, 3, 4] : List ℚ).getD 0 0 + 5 :=
  (claim_C2_slow_tendency [1, 2, 3, 4] 5 0 (by simp) (by simp)).2.1

/-- The per-k coupling sum: the J fast variables associated with slow index
k under the interleaved layout `Y[j*K + k]`. -/
def couplingSum (Y : List ℚ) (K J k : ℕ) : ℚ :=
  Finset.sum (Finset.range J) (fun j => Y.getD (j * K + k) 0)

/-- The coupling-tendency array `-(h*c/b) * sum_j Y[j,k]`, one entry per
slow index k. -/
def couplingTerm (Y : List ℚ) (K J : ℕ) (h b c : ℚ) : List ℚ :=
  (List.range K).map (fun k => -(h * c / b) * couplingSum Y K J k)

/-- Element `i` of the fast tendency:
`-c*b*Y[i+1]*(Y[i+2] - Y[i-1]) - c*Y[i] + (h*c/b)*X[i mod K]`, fast
neighbour indices circular mod `J*K = Y.length`. -/
def fastRhs (X Y : List ℚ) (h b c : ℚ) (i : ℕ) : ℚ :=
  -c * b * cg Y (i + 1) * (cg Y (i + 2) - cg Y (i + Y.length - 1)) - c * Y.getD i 0
    + (h * c / b) * X.getD (i % X.length) 0

/-- Modelled from the spec: `L96_2t_xdot_ydot` (`coupled_tendency`) of the
missing `L96_model` module — returns the slow tendency (uncoupled part plus
the subtracted coupling term), the fast tendency, and the raw coupling-term
array itself. -/
def L96_2t_xdot_ydot (X Y : List ℚ) (F h b c : ℚ) : List ℚ × List ℚ × List ℚ :=
  ((List.range X.length).map
      (fun k => slowRhs X F k + -(h * c / b) * couplingSum Y X.length (Y.length / X.length) k),
   (List.range Y.length).map (fastRhs X Y h b c),
   couplingTerm Y X.length (Y.length / X.length) h b c)

theorem zipWith_add_map (f g : ℕ → ℚ) (l : List ℕ) :
    vadd (l.map f) (l.map g) = l.map (fun k => f k + g k) := by
  induction l with
  | nil => rfl
  | cons a t ih => simp [vadd] at ih ⊢

theorem sum_list_range_map (f : ℕ → ℚ) (n : ℕ) :
    ((List.range n).map f).sum = Finset.sum (Finset.range n) f := by
  induction n with
  | zero => rfl
  | succ n ih =>
      rw [List.range_succ, List.map_append, List.sum_append, Finset.sum_range_succ, ih]
      simp

theorem sum_range_getD (l : List ℚ) :
    Finset.sum (Finset.range l.length) (fun i => l.getD i 0) = l.sum := by
  induction l with
  | nil => rfl
  | cons a t ih =>
      rw [List.length_cons, Finset.sum_range_succ']
      simp only [List.getD_cons_succ, List.getD_cons_zero]
      rw [ih, List.sum_cons, add_comm]

theorem sum_range_mul (g : ℕ → ℚ) (J K : ℕ) :
    Finset.sum (Finset.range (J * K)) g =
      Finset.sum (Finset.range J) (fun j => Finset.sum (Finset.range K) (fun k => g (j * K + k))) := by
  induction J with
  | zero => simp
  | succ J ih => rw [Nat.succ_mul, Finset.sum_range_add, ih, Finset.sum_range_succ]

/-- C5: the coupling contributions to the slow tendency sum to `-(h*c/b)`
times the sum of all fast variables; each per-k contribution is `-(h*c/b)`
times the sum of exactly J interleaved fast values, and the slow tendency
returned by the coupled tendency function is the uncoupled tendency plus
the coupling-term array. -/
theorem claim_C5_coupling_conservation (X Y : List ℚ) (J : ℕ) (F h b c : ℚ)
    (hK : 0 < X.length) (hY : Y.length = J * X.length) :
    (couplingTerm Y X.length J h b c).sum = -(h * c / b) * Y.sum ∧
    (∀ k, k < X.length → (couplingTerm Y X.length J h b c).getD k 0 =
      -(h * c / b) * Finset.sum (Finset.range J) (fun j => Y.getD (j * X.length + k) 0)) ∧
    (L96_2t_xdot_ydot X Y F h b c).1 =
      vadd (L96_eq1_xdot X F) (couplingTerm Y X.length J h b c) := by
  have hJ : Y.length / X.length = J := by rw [hY]; exact Nat.mul_div_left J hK
  refine ⟨?_, ?_, ?_⟩
  · unfold couplingTerm
    rw [sum_list_range_map, ← Finset.mul_sum]
    have h1 : Finset.sum (Finset.range X.length) (fun k => couplingSum Y X.length J k) = Y.sum := by
      unfold couplingSum
      rw [Finset.sum_comm, ← sum_range_mul (fun i => Y.getD i 0) J X.length, ← hY]
      exact sum_range_getD Y
    rw [h1]
  · intro k hk
    unfold couplingTerm
    rw [range_map_getD _ _ _ hk]
    rfl
  · unfold L96_2t_xdot_ydot L96_eq1_xdot couplingTerm
    rw [zipWith_add_map, hJ]

/-- Witness for C5 with K = 2, J = 2, Y = [10, 20, 30, 40], h = 1, b = 2,
c = 3. -/
theorem claim_C5_coupling_conservation_witness :
    (couplingTerm [10, 20, 30, 40] 2 2 1 2 3).sum =
      -(1 * 3 / 2) * ([10, 20, 30, 40] : List ℚ).sum :=
  (claim_C5_coupling_conservation [1, 2] [10, 20, 30, 40] 2 0 1 2 3
    (by decide) (by decide)).1

/-- Modelled from the spec: the `RK4` stepper of the missing `L96_model`
module, signature `(tendency_fn, dt, X, extra_args) -> X_next`, classic
4-stage formula, extra args forwarded verbatim to every tendency
evaluation. -/
def RK4 {P : Type} (f : List ℚ → P → List ℚ) (dt : ℚ) (X : List ℚ) (p : P) : List ℚ :=
  let k1 := f X p
  let k2 := f (vadd X (vsmul (dt / 2) k1)) p
  let k3 := f (vadd X (vsmul (dt / 2) k2)) p
  let k4 := f (vadd X (vsmul dt k3)) p
  vadd X (vsmul (dt / 6) (vadd (vadd (vadd k1 (vsmul 2 k2)) (vsmul 2 k3)) k4))

/-- Modelled from the spec: the `EulerFwd` stepper of the missing
`L96_model` module: `X_next = X + dt * tendency(X, *params)`. -/
def EulerFwd {P : Type} (f : List ℚ → P → List ℚ) (dt : ℚ) (X : List ℚ) (p : P) : List ℚ :=
  vadd X (vsmul dt (f X p))

/-- Componentwise sum of coupled (X, Y) states. -/
def padd (p q : List ℚ × List ℚ) : List ℚ × List ℚ := (vadd p.1 q.1, vadd p.2 q.2)

/-- Scalar times coupled (X, Y) state. -/
def psmul (c : ℚ) (p : List ℚ × List ℚ) : List ℚ × List ℚ := (vsmul c p.1, vsmul c p.2)

/-- The coupled (X, Y) tendency as a map on joint states. -/
def tend2t (F h b c : ℚ) (p : List ℚ × List ℚ) : List ℚ × List ℚ :=
  ((L96_2t_xdot_ydot p.1 p.2 F h b c).1, (L96_2t_xdot_ydot p.1 p.2 F h b c).2.1)

/-- RK4 on the coupled (X, Y) state. -/
def RK4pair (f : List ℚ × List ℚ → List ℚ × List ℚ) (dt : ℚ) (p : List ℚ × List ℚ) :
    List ℚ × List ℚ :=
  let k1 := f p
  let k2 := f (padd p (psmul (dt / 2) k1))
  let k3 := f (padd p (psmul (dt / 2) k2))
  let k4 := f (padd p (psmul dt k3))
  padd p (psmul (dt / 6) (padd (padd (padd k1 (psmul 2 k2)) (psmul 2 k3)) k4))

/-- One internal `dt` sub-step of the two-timescale integration (RK4 over
the coupled tendency, the default integrator named by the spec). -/
def l96_2t_step (F h b c dt : ℚ) (p : List ℚ × List ℚ) : List ℚ × List ℚ :=
  RK4pair (tend2t F h b c) dt p

/-- One internal `dt` sub-step of the single-timescale integration (RK4
over the uncoupled slow tendency). -/
def l96_1t_step (F dt : ℚ) (X : List ℚ) : List ℚ :=
  RK4 (fun W G => L96_eq1_xdot W G) dt X F

/-- `n`-fold iteration of a step map. -/
def stepN {α : Type} (f : α → α) : ℕ → α → α
  | 0, x => x
  | n + 1, x => stepN f n (f x)

/-- The `nt` sampled states after the initial one: each sample advances the
previous one by one sampling interval. -/
def sampleRows {α : Type} (step : α → α) : ℕ → α → List α
  | 0, _ => []
  | n + 1, x => step x :: sampleRows step n (step x)

/-- Modelled from the spec: `integrate_L96_2t` of the missing `L96_model`
module — from `(X0, Y0)` take `nt` samples spaced `si` apart, each sample
being `ns = round(si/dt)` RK4 sub-steps of the coupled tendency; returns
the X trajectory (initial condition as row 0), Y trajectory, and sample
times `0, si, 2*si, ...`. -/
def integrate_L96_2t (X0 Y0 : List ℚ) (si : ℚ) (nt : ℕ) (F h b c dt : ℚ) :
    List (List ℚ) × List (List ℚ) × List ℚ :=
  let ns := (round (si / dt)).toNat
  let step := fun p => stepN (l96_2t_step F h b c dt) ns p
  let rows := (X0, Y0) :: sampleRows step nt (X0, Y0)
  (rows.map Prod.fst, rows.map Prod.snd, (List.range (nt + 1)).map (fun i : ℕ => (i : ℚ) * si))

/-- Modelled from the spec: `integrate_L96_1t` of the missing `L96_model`
module — the same sampling contract restricted to the uncoupled slow
tendency (no Y, no coupling). -/
def integrate_L96_1t (X0 : List ℚ) (si : ℚ) (nt : ℕ) (F dt : ℚ) :
    List (List ℚ) × List ℚ :=
  let ns := (round (si / dt)).toNat
  let step := fun X => stepN (l96_1t_step F dt) ns X
  let rows := X0 :: sampleRows step nt X0
  (rows, (List.range (nt + 1)).map (fun i : ℕ => (i : ℚ) * si))

theorem tend2t_fst_length (F h b c : ℚ) (p : List ℚ × List ℚ) :
    (tend2t F h b c p).1.length = p.1.length := by
  simp [tend2t, L96_2t_xdot_ydot]

theorem tend2t_snd_length (F h b c : ℚ) (p : List ℚ × List ℚ) :
    (tend2t F h b c p).2.length = p.2.length := by
  simp [tend2t, L96_2t_xdot_ydot]

theorem l96_2t_step_fst_length (F h b c dt : ℚ) (p : List ℚ × List ℚ) :
    (l96_2t_step F h b c dt p).1.length = p.1.length := by
  simp [l96_2t_step, RK4pair, padd, psmul, vadd_length, vsmul_length,
    tend2t_fst_length, tend2t_snd_length]

theorem l96_2t_step_snd_length (F h b c dt : ℚ) (p : List ℚ × List ℚ) :
    (l96_2t_step F h b c dt p).2.length = p.2.length := by
  simp [l96_2t_step, RK4pair, padd, psmul, vadd_length, vsmul_length,
    tend2t_fst_length, tend2t_snd_length]

theorem stepN_pres {α : Type} (P : α → Prop) (f : α → α)
    (hf : ∀ x, P x → P (f x)) : ∀ n x, P x → P (stepN f n x) := by
  intro n
  induction n with
  | zero => intro x hx; exact hx
  | succ n ih => intro x hx; exact ih (f x) (hf x hx)

theorem sampleRows_pres {α : Type} (P : α → Prop) (step : α → α)
    (hstep : ∀ x, P x → P (step x)) :
    ∀ n x, P x → ∀ r ∈ sampleRows step n x, P r := by
  intro n
  induction n with
  | zero => intro x _ r hr; simp [sampleRows] at hr
  | succ n ih =>
      intro x hx r hr
      rw [sampleRows] at hr
      rcases List.mem_cons.mp hr with h1 | h2
      · rw [h1]; exact hstep x hx
      · exact ih (step x) (hstep x hx) r h2

theorem sampleRows_length {α : Type} (step : α → α) :
    ∀ n x, (sampleRows step n x).length = n := by
  intro n
  induction n with
  | zero => intro x; rfl
  | succ n ih => intro x; rw [sampleRows]; simp [ih]

theorem map_eq_replicate {α : Type} (l : List α) (f : α → ℕ) (K : ℕ)
    (h : ∀ r ∈ l, f r = K) : l.map f = List.replicate l.length K := by
  induction l with
  | nil => rfl
  | cons a t ih =>
      rw [List.map_cons, List.length_cons, List.replicate_succ, h a (by simp),
        ih (fun r hr => h r (by simp [hr]))]

theorem integrate_L96_2t_fst (X0 Y0 : List ℚ) (si : ℚ) (nt : ℕ) (F h b c dt : ℚ) :
    (integrate_L96_2t X0 Y0 si nt F h b c dt).1 =
      ((X0, Y0) :: sampleRows
        (fun p => stepN (l96_2t_step F h b c dt) ((round (si / dt)).toNat) p) nt
        (X0, Y0)).map Prod.fst := rfl

theorem integrate_L96_2t_snd (X0 Y0 : List ℚ) (si : ℚ) (nt : ℕ) (F h b c dt : ℚ) :
    (integrate_L96_2t X0 Y0 si nt F h b c dt).2.1 =
      ((X0, Y0) :: sampleRows
        (fun p => stepN (l96_2t_step F h b c dt) ((round (si / dt)).toNat) p) nt
        (X0, Y0)).map Prod.snd := rfl

theorem integrate_L96_2t_times (X0 Y0 : List ℚ) (si : ℚ) (nt : ℕ) (F h b c dt : ℚ) :
    (integrate_L96_2t X0 Y0 si nt F h b c dt).2.2 =
      (List.range (nt + 1)).map (fun i : ℕ => (i : ℚ) * si) := rfl

/-- C1: the two-timescale integration returns an X trajectory of shape
(nt+1, K) with the initial condition as row 0, a Y trajectory of shape
(nt+1, J*K), and sample times `0, si, ..., nt*si`; with nt = 0 only the
initial-condition row is returned. -/
theorem claim_C1_trajectory_shapes (X0 Y0 : List ℚ) (si : ℚ) (nt : ℕ)
    (F h b c dt : ℚ) (K J : ℕ) (hX : X0.length = K) (hY : Y0.length = J * K) :
    (integrate_L96_2t X0 Y0 si nt F h b c dt).1.length = nt + 1 ∧
    (integrate_L96_2t X0 Y0 si nt F h b c dt).1.map List.length =
      List.replicate (nt + 1) K ∧
    (integrate_L96_2t X0 Y0 si nt F h b c dt).2.1.map List.length =
      List.replicate (nt + 1) (J * K) ∧
    (integrate_L96_2t X0 Y0 si nt F h b c dt).1.head? = some X0 ∧
    (integrate_L96_2t X0 Y0 si nt F h b c dt).2.1.head? = some Y0 ∧
    (integrate_L96_2t X0 Y0 si nt F h b c dt).2.2.length = nt + 1 ∧
    (∀ i, i < nt + 1 →
      (integrate_L96_2t X0 Y0 si nt F h b c dt).2.2.getD i 0 = (i : ℚ) * si) ∧
    (nt = 0 → (integrate_L96_2t X0 Y0 si nt F h b c dt).1 = [X0] ∧
      (integrate_L96_2t X0 Y0 si nt F h b c dt).2.1 = [Y0]) := by
  rw [integrate_L96_2t_fst, integrate_L96_2t_snd, integrate_L96_2t_times]
  have hstep : ∀ p : List ℚ × List ℚ,
      (p.1.length = K ∧ p.2.length = J * K) →
      ((stepN (l96_2t_step F h b c dt) ((round (si / dt)).toNat) p).1.length = K ∧
       (stepN (l96_2t_step F h b c dt) ((round (si / dt)).toNat) p).2.length = J * K) := by
    intro p hp
    exact stepN_pres (fun q => q.1.length = K ∧ q.2.length = J * K) _
      (fun q hq => ⟨by rw [l96_2t_step_fst_length]; exact hq.1,
                    by rw [l96_2t_step_snd_length]; exact hq.2⟩)
      ((round (si / dt)).toNat) p hp
  have hrows : ∀ r ∈ sampleRows
      (fun p => stepN (l96_2t_step F h b c dt) ((round (si / dt)).toNat) p) nt (X0, Y0),
      r.1.length = K ∧ r.2.length = J * K :=
    sampleRows_pres (fun q => q.1.length = K ∧ q.2.length = J * K) _ hstep nt (X0, Y0) ⟨hX, hY⟩
  refine ⟨?_, ?_, ?_, rfl, rfl, ?_, ?_, ?_⟩
  · simp [sampleRows_length]
  · rw [List.map_map]
    rw [map_eq_replicate _ _ K ?_]
    · simp [sampleRows_length]
    · intro r hr
      rcases List.mem_cons.mp hr with h1 | h2
      · rw [h1]; exact hX
      · exact (hrows r h2).1
  · rw [List.map_map]
    rw [map_eq_replicate _ _ (J * K) ?_]
    · simp [sampleRows_length]
    · intro r hr
      rcases List.mem_cons.mp hr with h1 | h2
      · rw [h1]; exact hY
      · exact (hrows r h2).2
  · simp
  · intro i hi; exact range_map_getD _ _ _ hi
  · intro hnt; subst hnt; exact ⟨rfl, rfl⟩

/-- Witness for C1 at K = 4, J = 1, nt = 0, si = dt = 1. -/
theorem claim_C1_trajectory_shapes_witness :
    (integrate_L96_2t [1, 2, 3, 4] [5, 6, 7, 8] 1 0 10 1 10 10 1).1 =
      [[1, 2, 3, 4]] :=
  ((claim_C1_trajectory_shapes [1, 2, 3, 4] [5, 6, 7, 8] 1 0 10 1 10 10 1 4 1
    (by simp) (by simp)).2.2.2.2.2.2.2 rfl).1

theorem integrate_L96_1t_fst (X0 : List ℚ) (si : ℚ) (nt : ℕ) (F dt : ℚ) :
    (integrate_L96_1t X0 si nt F dt).1 =
      X0 :: sampleRows (fun X => stepN (l96_1t_step F dt) ((round (si / dt)).toNat) X) nt X0 := rfl

/-- C7: one RK4 step is `X + dt/6*(k1 + 2*k2 + 2*k3 + k4)` with the four
tendency evaluations `k1 = f(X)`, `k2 = f(X + dt/2*k1)`,
`k3 = f(X + dt/2*k2)`, `k4 = f(X + dt*k3)`, parameters forwarded verbatim
to each of the exactly four tendency evaluations; RK4 is the integrator the
orchestration operations step with. -/
theorem claim_C7_rk4 {P : Type} (f : List ℚ → P → List ℚ) (dt : ℚ) (X : List ℚ) (p : P) :
    RK4 f dt X p =
      vadd X (vsmul (dt / 6)
        (vadd (vadd (vadd (f X p) (vsmul 2 (f (vadd X (vsmul (dt / 2) (f X p))) p)))
            (vsmul 2 (f (vadd X (vsmul (dt / 2) (f (vadd X (vsmul (dt / 2) (f X p))) p))) p)))
          (f (vadd X (vsmul dt
            (f (vadd X (vsmul (dt / 2) (f (vadd X (vsmul (dt / 2) (f X p))) p))) p))) p))) ∧
    (∀ F h b c dt2 q, l96_2t_step F h b c dt2 q = RK4pair (tend2t F h b c) dt2 q) ∧
    (∀ F dt2 Z, l96_1t_step F dt2 Z = RK4 (fun W G => L96_eq1_xdot W G) dt2 Z F) :=
  ⟨rfl, fun _ _ _ _ _ _ => rfl, fun _ _ _ => rfl⟩

theorem tend2t_fst_h0 (F b c : ℚ) (p : List ℚ × List ℚ) :
    (tend2t F 0 b c p).1 = L96_eq1_xdot p.1 F := by
  simp [tend2t, L96_2t_xdot_ydot, L96_eq1_xdot]

theorem l96_2t_step_fst_h0 (F b c dt : ℚ) (p : List ℚ × List ℚ) :
    (l96_2t_step F 0 b c dt p).1 = l96_1t_step F dt p.1 := by
  simp only [l96_2t_step, l96_1t_step, RK4pair, RK4, padd, psmul, tend2t_fst_h0]

theorem stepN_fst_h0 (F b c dt : ℚ) (ns : ℕ) :
    ∀ p : List ℚ × List ℚ,
      (stepN (l96_2t_step F 0 b c dt) ns p).1 = stepN (l96_1t_step F dt) ns p.1 := by
  induction ns with
  | zero => intro p; rfl
  | succ n ih =>
      intro p
      rw [stepN, stepN, ih (l96_2t_step F 0 b c dt p), l96_2t_step_fst_h0]

theorem sampleRows_fst_h0 (F b c dt : ℚ) (ns : ℕ) :
    ∀ (nt : ℕ) (p : List ℚ × List ℚ),
      (sampleRows (fun q => stepN (l96_2t_step F 0 b c dt) ns q) nt p).map Prod.fst =
        sampleRows (fun X => stepN (l96_1t_step F dt) ns X) nt p.1 := by
  intro nt
  induction nt with
  | zero => intro p; rfl
  | succ n ih =>
      intro p
      rw [sampleRows, sampleRows, List.map_cons, ih, stepN_fst_h0]

/-- C6: with coupling strength h = 0 the slow-variable trajectory of the
two-timescale integration equals the trajectory of the single-timescale
integration from the same initial condition, sampling interval, sample
count, forcing and internal step, with the same (RK4) integrator; the time
sequences agree as well. -/
theorem claim_C6_h0_equivalence (X0 Y0 : List ℚ) (si : ℚ) (nt : ℕ) (F b c dt : ℚ) :
    (integrate_L96_2t X0 Y0 si nt F 0 b c dt).1 = (integrate_L96_1t X0 si nt F dt).1 ∧
    (integrate_L96_2t X0 Y0 si nt F 0 b c dt).2.2 = (integrate_L96_1t X0 si nt F dt).2 := by
  constructor
  · rw [integrate_L96_2t_fst, integrate_L96_1t_fst, List.map_cons, sampleRows_fst_h0]
  · rfl

theorem getLast_cons_getLastD {α : Type} (a : α) (l : List α) :
    (a :: l).getLast? = some (l.getLastD a) := by
  induction l generalizing a with
  | nil => rfl
  | cons b t ih => rw [List.getLastD_cons, List.getLast?_cons_cons, ih]

/-- Modelled from the spec: the stateful `L96` wrapper object of the
missing `L96_model` module, bundling `(K, J, F, h, b, c, dt)` with the
current `(X, Y)` state. -/
structure L96 where
  K : ℕ
  J : ℕ
  F : ℚ
  h : ℚ
  b : ℚ
  c : ℚ
  dt : ℚ
  X : List ℚ
  Y : List ℚ

/-- Modelled from the spec: `L96.run(si, T, store)` — computes
`nt = round(T/si)`, delegates to the two-timescale orchestration from the
current state and parameters of the object, and (only) when `store=True`
overwrites the `(X, Y)` of the object with the final sampled state.  The updated
object is returned alongside the trajectories to make the state effect
explicit. -/
def L96.run (m : L96) (si T : ℚ) (store : Bool) :
    (List (List ℚ) × List (List ℚ) × List ℚ) × L96 :=
  let nt := (round (T / si)).toNat
  let out := integrate_L96_2t m.X m.Y si nt m.F m.h m.b m.c m.dt
  (out, if store then { m with X := out.1.getLastD m.X, Y := out.2.1.getLastD m.Y } else m)

/-- Modelled from the spec: `L96.set_state(X, Y)` — validates lengths
against `K` and `J*K`, failing with a shape-mismatch error otherwise, and
on success replaces the current state and returns the (updated) object
itself for chaining. -/
def L96.set_state (m : L96) (X Y : List ℚ) : Except String L96 :=
  if X.length = m.K ∧ Y.length = m.J * m.K then
    Except.ok { m with X := X, Y := Y }
  else
    Except.error "shape mismatch"

/-- C3: `run(si, T, store=False)` leaves the object unchanged, so calling
it twice in a row yields identical (bit-identical, since the embedding is
a deterministic pure function with no hidden randomness) trajectories. -/
theorem claim_C3_run_deterministic (m : L96) (si T : ℚ) :
    (m.run si T false).2 = m ∧
    ((m.run si T false).2.run si T false).1 = (m.run si T false).1 := by
  have h1 : (m.run si T false).2 = m := rfl
  exact ⟨h1, by rw [h1]⟩

/-- C4: after `run(si, T, store=True)` the current `(X, Y)` of the object is the
final sampled state of that run, and a second `run(si, T, store=True)`
starts its trajectory (row 0) at the final row of the first run. -/
theorem claim_C4_run_continuation (m : L96) (si T : ℚ) :
    (m.run si T true).1.1.getLast? = some ((m.run si T true).2.X) ∧
    (m.run si T true).1.2.1.getLast? = some ((m.run si T true).2.Y) ∧
    ((m.run si T true).2.run si T true).1.1.head? = (m.run si T true).1.1.getLast? := by
  have hX : (m.run si T true).2.X = (m.run si T true).1.1.getLastD m.X := rfl
  have hY : (m.run si T true).2.Y = (m.run si T true).1.2.1.getLastD m.Y := rfl
  have hfst : (m.run si T true).1.1 =
      m.X :: (sampleRows
        (fun p => stepN (l96_2t_step m.F m.h m.b m.c m.dt) ((round (si / m.dt)).toNat) p)
        ((round (T / si)).toNat) (m.X, m.Y)).map Prod.fst := rfl
  have hsnd : (m.run si T true).1.2.1 =
      m.Y :: (sampleRows
        (fun p => stepN (l96_2t_step m.F m.h m.b m.c m.dt) ((round (si / m.dt)).toNat) p)
        ((round (T / si)).toNat) (m.X, m.Y)).map Prod.snd := rfl
  refine ⟨?_, ?_, ?_⟩
  · rw [hX, hfst, getLast_cons_getLastD, List.getLastD_cons]
  · rw [hY, hsnd, getLast_cons_getLastD, List.getLastD_cons]
  · have hhead : ((m.run si T true).2.run si T true).1.1.head? =
        some ((m.run si T true).2.X) := rfl
    rw [hhead, hX, hfst, getLast_cons_getLastD, List.getLastD_cons]

/-- C8: `set_state(X, Y)` succeeds exactly when `len(X) = K` and
`len(Y) = J*K`, in which case the returned object is the input object with
its state replaced by exactly the given arrays (no truncation or padding);
on any length mismatch it returns a shape-mismatch error. -/
theorem claim_C8_set_state (m : L96) (X Y : List ℚ) :
    (∀ m', m.set_state X Y = Except.ok m' ↔
      (X.length = m.K ∧ Y.length = m.J * m.K ∧ m' = { m with X := X, Y := Y })) ∧
    (¬(X.length = m.K ∧ Y.length = m.J * m.K) →
      m.set_state X Y = Except.error "shape mismatch") := by
  constructor
  · intro m'
    constructor
    · intro hok
      unfold L96.set_state at hok
      by_cases hc : X.length = m.K ∧ Y.length = m.J * m.K
      · rw [if_pos hc] at hok
        exact ⟨hc.1, hc.2, (Except.ok.inj hok).symm⟩
      · rw [if_neg hc] at hok
        exact absurd hok (by simp)
    · intro hc
      unfold L96.set_state
      rw [if_pos ⟨hc.1, hc.2.1⟩, hc.2.2]
  · intro hc
    unfold L96.set_state
    rw [if_neg hc]

/-- Witness for C8: a length mismatch (K = 4 but a length-3 X) is rejected,
and valid lengths are accepted with the state replaced. -/
theorem claim_C8_set_state_witness :
    (L96.mk 4 1 10 1 10 10 1 [0, 0, 0, 0] [0, 0, 0, 0]).set_state [1, 2, 3] [5, 6, 7, 8] =
      Except.error "shape mismatch" :=
  (claim_C8_set_state (L96.mk 4 1 10 1 10 10 1 [0, 0, 0, 0] [0, 0, 0, 0])
    [1, 2, 3] [5, 6, 7, 8]).2 (by simp)

/-- `np.polyval(p, x)`: polynomial with coefficient list `p` (highest power
first) evaluated at `x` by the Horner scheme. -/
def polyval (p : List ℚ) (x : ℚ) : ℚ := p.foldl (fun acc ci => acc * x + ci) 0

/-- Notebook source: `naive_parameterization = lambda param, X:
np.polyval(param, X)` (numpy evaluates the polynomial elementwise). -/
def naive_parameterization (param X : List ℚ) : List ℚ := X.map (polyval param)

/-- Notebook source: the rows `hist[1], ..., hist[nt]` produced by the
`GCM_no_parameterization` loop `X = X + dt * (L96_eq1_xdot(X, F))`. -/
def noParamRows (F dt : ℚ) : ℕ → List ℚ → List (List ℚ)
  | 0, _ => []
  | n + 1, X =>
      vadd X (vsmul dt (L96_eq1_xdot X F)) ::
        noParamRows F dt n (vadd X (vsmul dt (L96_eq1_xdot X F)))

/-- Notebook source: `GCM_no_parameterization(X0, F, dt, nt)` — forward
Euler on the uncoupled slow tendency; returns `(hist, time)` with
`hist[0] = X0` and `time = dt * np.arange(nt + 1)`. -/
def GCM_no_parameterization (X0 : List ℚ) (F dt : ℚ) (nt : ℕ) :
    List (List ℚ) × List ℚ :=
  (X0 :: noParamRows F dt nt X0, (List.range (nt + 1)).map (fun i : ℕ => dt * (i : ℚ)))

/-- Notebook source: the `GCM` class — forcing, closure and a time-stepping
scheme defaulting to `EulerFwd`. -/
structure GCM where
  F : ℚ
  parameterization : List ℚ → List ℚ → List ℚ
  time_stepping : (List ℚ → List ℚ → List ℚ) → ℚ → List ℚ → List ℚ → List ℚ := EulerFwd

/-- Notebook source: `GCM.rhs(X, param) = L96_eq1_xdot(X, self.F) -
self.parameterization(param, X)`. -/
def GCM.rhs (g : GCM) (X param : List ℚ) : List ℚ :=
  vsub (L96_eq1_xdot X g.F) (g.parameterization param X)

/-- Notebook source: the rows produced by the `GCM.__call__` loop
`X = self.time_stepping(self.rhs, dt, X, param)`. -/
def gcmRows (g : GCM) (dt : ℚ) (param : List ℚ) : ℕ → List ℚ → List (List ℚ)
  | 0, _ => []
  | n + 1, X =>
      g.time_stepping g.rhs dt X param ::
        gcmRows g dt param n (g.time_stepping g.rhs dt X param)

/-- Notebook source: `GCM.__call__(X0, dt, nt, param)` — returns
`(hist, time)` with `hist[0] = X0`. -/
def GCM.call (g : GCM) (X0 : List ℚ) (dt : ℚ) (nt : ℕ) (param : List ℚ) :
    List (List ℚ) × List ℚ :=
  (X0 :: gcmRows g dt param nt X0, (List.range (nt + 1)).map (fun i : ℕ => dt * (i : ℚ)))

theorem polyval_zero (x : ℚ) : polyval [0] x = 0 := by
  simp [polyval]

theorem vsub_zeros (l : List ℚ) :
    ∀ z : List ℚ, l.length ≤ z.length → (∀ x ∈ z, x = 0) → vsub l z = l := by
  induction l with
  | nil => intro z _ _; rfl
  | cons a t ih =>
      intro z hlen hz
      cases z with
      | nil => simp at hlen
      | cons b u =>
          have hb : b = 0 := hz b (by simp)
          have hu : vsub t u = t := ih u (by simpa using hlen) (fun x hx => hz x (by simp [hx]))
          show vsub (a :: t) (b :: u) = a :: t
          rw [vsub, List.zipWith_cons_cons, hb, sub_zero]
          rw [vsub] at hu
          rw [hu]

theorem naive_rhs_zero (F : ℚ) (X : List ℚ) :
    GCM.rhs { F := F, parameterization := naive_parameterization } X [0] =
      L96_eq1_xdot X F := by
  show vsub (L96_eq1_xdot X F) (naive_parameterization [0] X) = L96_eq1_xdot X F
  have hz : naive_parameterization [0] X = X.map (fun _ => (0 : ℚ)) := by
    unfold naive_parameterization
    refine List.map_congr_left ?_
    intro x _
    exact polyval_zero x
  rw [hz]
  exact vsub_zeros _ _ (by simp [L96_eq1_xdot]) (by simp)

theorem naive_step_zero (F dt : ℚ) (X : List ℚ) :
    GCM.time_stepping { F := F, parameterization := naive_parameterization }
        (GCM.rhs { F := F, parameterization := naive_parameterization }) dt X [0] =
      vadd X (vsmul dt (L96_eq1_xdot X F)) := by
  show vadd X (vsmul dt
    (GCM.rhs { F := F, parameterization := naive_parameterization } X [0])) = _
  rw [naive_rhs_zero]

theorem gcmRows_naive_zero (F dt : ℚ) :
    ∀ (nt : ℕ) (X : List ℚ),
      gcmRows { F := F, parameterization := naive_parameterization } dt [0] nt X =
        noParamRows F dt nt X := by
  intro nt
  induction nt with
  | zero => intro X; rfl
  | succ n ih =>
      intro X
      rw [gcmRows, noParamRows, naive_step_zero, ih]

/-- C9: the parameterized GCM with its default Euler-forward time stepping
and `param = [0]` produces exactly the same (trajectory, time) pair as
`GCM_no_parameterization`, because `np.polyval([0], X)` is identically
zero. -/
theorem claim_C9_trivial_param (X0 : List ℚ) (F dt : ℚ) (nt : ℕ) :
    GCM.call { F := F, parameterization := naive_parameterization } X0 dt nt [0] =
      GCM_no_parameterization X0 F dt nt := by
  unfold GCM.call GCM_no_parameterization
  rw [gcmRows_naive_zero]

theorem getD_append_left {α : Type} (l l2 : List α) (d : α) (n : ℕ)
    (h : n < l.length) : (l ++ l2).getD n d = l.getD n d :=
  List.getD_append l l2 d n h

theorem getD_concat_self {α : Type} (l : List α) (x d : α) :
    (l ++ [x]).getD l.length d = x := by
  simp [List.getD_eq_getElem?_getD]

theorem head_set_succ {α : Type} (l : List α) (a : α) (n : ℕ) :
    (l.set (n + 1) a).head? = l.head? := by
  cases l <;> rfl

theorem head_set_zero {α : Type} (l : List α) (a : α) (h : l ≠ []) :
    (l.set 0 a).head? = some a := by
  cases l with
  | nil => exact absurd rfl h
  | cons b t => rfl

theorem getD_set_self {α : Type} (l : List α) (v d : α) (r : ℕ)
    (h : r < l.length) : (l.set r v).getD r d = v := by
  simp [List.getD_eq_getElem?_getD, List.getElem?_set_self', h]

/-- A store of allocated numpy arrays: 1-D arrays (`vecs`) and 2-D arrays
(`mats`), addressed by allocation index.  Python assignment rebinding is
modelled by passing a new address; in-place element assignment
(`hist[i] = X`) is a `set` on the addressed array. -/
structure Store where
  vecs : List (List ℚ)
  mats : List (List (List ℚ))

/-- Read the 1-D array at address `r`. -/
def vread (s : Store) (r : ℕ) : List ℚ := s.vecs.getD r []

/-- Allocate a fresh 1-D array holding `v`; returns the new store and the
new address. -/
def valloc (s : Store) (v : List ℚ) : Store × ℕ :=
  ({ vecs := s.vecs ++ [v], mats := s.mats }, s.vecs.length)

/-- Read the 2-D array at address `r`. -/
def mread (s : Store) (r : ℕ) : List (List ℚ) := s.mats.getD r []

/-- Allocate a fresh 2-D array. -/
def malloc (s : Store) (mval : List (List ℚ)) : Store × ℕ :=
  ({ vecs := s.vecs, mats := s.mats ++ [mval] }, s.mats.length)

/-- In-place row assignment `arr[i] = row` on the 2-D array at address
`r`. -/
def mwrite (s : Store) (r i : ℕ) (row : List ℚ) : Store :=
  { vecs := s.vecs, mats := s.mats.set r ((s.mats.getD r []).set i row) }

/-- The loop `for n in range(nt): X = step(X); hist[n+1] = X` of the two
notebook integration functions: each iteration computes a fresh array from
the current `X` (numpy expressions allocate their results), rebinds the
local `X` to it, and writes its values into row `i+1` of `hist`. -/
def histLoop (stepf : List ℚ → List ℚ) (histr : ℕ) : ℕ → ℕ → Store → ℕ → Store
  | 0, _, s, _ => s
  | n + 1, i, s, xr =>
      histLoop stepf histr n (i + 1)
        (mwrite (valloc s (stepf (vread s xr))).1 histr (i + 1) (stepf (vread s xr)))
        (valloc s (stepf (vread s xr))).2

/-- The shared imperative body of `GCM_no_parameterization` and
`GCM.__call__` over the array store: allocate `hist`, copy `X0`
(`X = X0.copy()`), write `hist[0] = X`, then run the stepping loop; the
per-step update expression is the only difference between the two
functions and is passed as `stepf`.  Returns the final store and the
address of `hist`. -/
def callImp (s : Store) (x0 : ℕ) (stepf : List ℚ → List ℚ) (nt : ℕ) : Store × ℕ :=
  let hist0 := List.replicate (nt + 1) (List.replicate (vread s x0).length 0)
  let s1 := (malloc s hist0).1
  let histr := (malloc s hist0).2
  let s2 := (valloc s1 (vread s1 x0)).1
  let xr := (valloc s1 (vread s1 x0)).2
  let s3 := mwrite s2 histr 0 (vread s2 xr)
  (histLoop stepf histr nt 0 s3 xr, histr)

/-- `GCM_no_parameterization` over the store: step expression
`X + dt * (L96_eq1_xdot(X, F))`. -/
def GCM_no_parameterization_imp (s : Store) (x0 : ℕ) (F dt : ℚ) (nt : ℕ) : Store × ℕ :=
  callImp s x0 (fun X => vadd X (vsmul dt (L96_eq1_xdot X F))) nt

/-- `GCM.__call__` over the store: step expression
`self.time_stepping(self.rhs, dt, X, param)`. -/
def GCM_call_imp (s : Store) (x0 : ℕ) (g : GCM) (dt : ℚ) (nt : ℕ) (param : List ℚ) :
    Store × ℕ :=
  callImp s x0 (fun X => g.time_stepping g.rhs dt X param) nt

theorem histLoop_frame (stepf : List ℚ → List ℚ) (histr x0 : ℕ) (v0 : List ℚ) :
    ∀ (n i : ℕ) (s : Store) (xr : ℕ),
      x0 < s.vecs.length → vread s x0 = v0 →
      histr < s.mats.length → (mread s histr).head? = some v0 →
      x0 < (histLoop stepf histr n i s xr).vecs.length ∧
      vread (histLoop stepf histr n i s xr) x0 = v0 ∧
      histr < (histLoop stepf histr n i s xr).mats.length ∧
      (mread (histLoop stepf histr n i s xr) histr).head? = some v0 := by
  intro n
  induction n with
  | zero => intro i s xr h1 h2 h3 h4; exact ⟨h1, h2, h3, h4⟩
  | succ n ih =>
      intro i s xr h1 h2 h3 h4
      rw [histLoop]
      apply ih
      · show x0 < (s.vecs ++ [stepf (vread s xr)]).length
        rw [List.length_append]
        exact Nat.lt_of_lt_of_le h1 (Nat.le_add_right _ _)
      · show (s.vecs ++ [stepf (vread s xr)]).getD x0 [] = v0
        rw [getD_append_left _ _ _ _ h1]
        exact h2
      · show histr < (s.mats.set histr _).length
        rw [List.length_set]
        exact h3
      · show ((s.mats.set histr ((s.mats.getD histr []).set (i + 1)
            (stepf (vread s xr)))).getD histr []).head? = some v0
        rw [getD_set_self _ _ _ _ h3, head_set_succ]
        exact h4

theorem callImp_frame (s : Store) (x0 : ℕ) (stepf : List ℚ → List ℚ) (nt : ℕ)
    (hx : x0 < s.vecs.length) :
    vread (callImp s x0 stepf nt).1 x0 = vread s x0 ∧
    (mread (callImp s x0 stepf nt).1 (callImp s x0 stepf nt).2).head? =
      some (vread s x0) := by
  have key := histLoop_frame stepf s.mats.length x0 (vread s x0) nt 0
    (mwrite
      (valloc { vecs := s.vecs, mats := s.mats ++
        [List.replicate (nt + 1) (List.replicate (vread s x0).length 0)] }
        (vread s x0)).1
      s.mats.length 0
      (vread (valloc { vecs := s.vecs, mats := s.mats ++
        [List.replicate (nt + 1) (List.replicate (vread s x0).length 0)] }
        (vread s x0)).1 s.vecs.length))
    s.vecs.length ?_ ?_ ?_ ?_
  · exact ⟨key.2.1, key.2.2.2⟩
  · show x0 < (s.vecs ++ [vread s x0]).length
    rw [List.length_append]
    exact Nat.lt_of_lt_of_le hx (Nat.le_add_right _ _)
  · show (s.vecs ++ [vread s x0]).getD x0 [] = vread s x0
    exact getD_append_left _ _ _ _ hx
  · show s.mats.length < ((s.mats ++ [_]).set s.mats.length _).length
    rw [List.length_set, List.length_append]
    simp
  · show (((s.mats ++ [List.replicate (nt + 1) (List.replicate (vread s x0).length 0)]).set
        s.mats.length
        (((s.mats ++ [List.replicate (nt + 1)
          (List.replicate (vread s x0).length 0)]).getD s.mats.length []).set 0
          ((s.vecs ++ [vread s x0]).getD s.vecs.length []))).getD
        s.mats.length []).head? = some (vread s x0)
    rw [getD_concat_self, getD_concat_self, getD_set_self, head_set_zero]
    · simp
    · simp

/-- C10: neither `GCM_no_parameterization` nor `GCM.__call__` mutates the
initial-condition array of the caller: after the call the array at the
given address holds exactly its pre-call values, and row 0 of the returned
trajectory equals those values. -/
theorem claim_C10_no_mutation (s : Store) (x0 : ℕ) (F dt : ℚ) (nt : ℕ)
    (g : GCM) (param : List ℚ) (hx : x0 < s.vecs.length) :
    vread (GCM_no_parameterization_imp s x0 F dt nt).1 x0 = vread s x0 ∧
    (mread (GCM_no_parameterization_imp s x0 F dt nt).1
      (GCM_no_parameterization_imp s x0 F dt nt).2).head? = some (vread s x0) ∧
    vread (GCM_call_imp s x0 g dt nt param).1 x0 = vread s x0 ∧
    (mread (GCM_call_imp s x0 g dt nt param).1
      (GCM_call_imp s x0 g dt nt param).2).head? = some (vread s x0) := by
  have h1 := callImp_frame s x0 (fun X => vadd X (vsmul dt (L96_eq1_xdot X F))) nt hx
  have h2 := callImp_frame s x0 (fun X => g.time_stepping g.rhs dt X param) nt hx
  exact ⟨h1.1, h1.2, h2.1, h2.2⟩

/-- Witness for C10: a one-array store holding `[1, 2]` is untouched by a
one-step `GCM_no_parameterization` call. -/
theorem claim_C10_no_mutation_witness :
    vread (GCM_no_parameterization_imp { vecs := [[1, 2]], mats := [] } 0 1 1 1).1 0 =
      vread { vecs := [[1, 2]], mats := [] } 0 :=
  (claim_C10_no_mutation { vecs := [[1, 2]], mats := [] } 0 1 1 1
    { F := 0, parameterization := naive_parameterization } [0] (by simp)).1
